import Mathlib

/-
Verification development for the zipthing repository (src/src/index.ts).

The source is a single Express handler (in two variants, concatenated in
index.ts) that lists objects under a source key, fetches each object via
sequential byte-range requests, appends the fetched bytes to a streaming
zip encoder, and re-uploads the encoder's output stream as a multipart
upload (with a single-shot PutObject fallback when no full part was cut).

Bytes are modelled as Nat, buffers as List Nat, remote calls as oracle
functions, and the handler's externally visible behaviour as a list of
Action values in program order.  The asynchronous passThrough end handler
(lines 120-183), which the main control flow does not await, is kept as a
separate action list; real executions are interleavings of the main trace
with that list (the Interleave relation below).
-/

namespace ZipThing

/-- Constant from index.ts line 67: streamObjectSize = 1024 * 1024. -/
def streamObjectSize : Nat := 1024 * 1024

/-- Constant from index.ts line 68: partSize = streamObjectSize * 5. -/
def partSizeDefault : Nat := streamObjectSize * 5

/-- One entry of the ListObjectsV2 Contents array: Key and Size. -/
structure Desc where
  key : String
  size : Nat
deriving DecidableEq, Repr

/-- Externally visible remote calls and HTTP responses of one handler run. -/
inductive Action where
  | respond (code : Nat)
  | createMultipart
  | uploadPart (partNumber : Nat) (body : List Nat)
  | completeMultipart (parts : List (Nat × String))
  | abortMultipart
  | putObject (body : List Nat)
  | getObject (key : String) (start stop : Int)
  | append (name : String) (body : List Nat)
deriving DecidableEq, Repr

/-- Archive entry name: file.Key.substring(file.Key.lastIndexOf("/") + 1)
(index.ts line 213), i.e. the part of the key after the last slash. -/
def baseName (key : String) : String :=
  (key.splitOn "/").getLastD key

/-- A successful GetObject range response: the Body bytes together with the
start, end and total-length fields parsed from ContentRange (lines 216-225). -/
structure Frag where
  body : List Nat
  rStart : Int
  rEnd : Int
  rLen : Int
deriving DecidableEq, Repr

/-- The fileRangeAndLength record of index.ts lines 188-192. -/
structure RangeState where
  start : Int
  stop : Int
  len : Int
deriving DecidableEq, Repr

/-- Initial value { start: -1, end: -1, length: -1 } of index.ts line 188. -/
def initRange : RangeState := ⟨-1, -1, -1⟩

/-- Outcome of running the ranged-read while loop for a bounded number of
iterations: the emitted actions, the final fileRangeAndLength state, the
number of GetObject calls issued, and whether the loop exited (done). -/
structure RangedOut where
  acts : List Action
  st : RangeState
  calls : Nat
  done : Bool
deriving DecidableEq, Repr

/-- Behaviour of the remote store for an in-range GetObject request on an
object with the given bytes: ContentRange reports the requested start, the
satisfied end min(requested end, length - 1), and the total length; the body
holds exactly the bytes of that range.  An unsatisfiable range (start outside
the object) is modelled as a failed response (none), which the code treats
like a missing ContentRange/Body (line 208). -/
def honestFetch (obj : List Nat) : Nat → Int → Int → Option Frag :=
  fun _ s e =>
    if 0 ≤ s ∧ s < (obj.length : Int) then
      some ⟨(obj.drop s.toNat).take ((min e ((obj.length : Int) - 1)) - s + 1).toNat,
            s, min e ((obj.length : Int) - 1), (obj.length : Int)⟩
    else none

/-- A store whose first response lacks ContentRange/Body and which answers
honestly from then on. -/
def flakyOnceFetch (obj : List Nat) : Nat → Int → Int → Option Frag :=
  fun n s e => if n = 0 then none else honestFetch obj n s e

/-- The while loop of index.ts lines 194-226, with explicit fuel.  Each
iteration requests bytes from end+1 to end+streamObjectSize; a response with
no ContentRange or Body leaves the state unchanged (continue, line 208);
otherwise the body is appended to the archive and the state is replaced by
the parsed ContentRange.  The loop exits when end = length - 1. -/
def rangedReadGo (w : Nat) (key nm : String) (fetch : Nat → Int → Int → Option Frag) :
    Nat → RangeState → Nat → List Action → RangedOut
  | 0, st, calls, acc =>
      if st.stop = st.len - 1 then ⟨acc, st, calls, true⟩ else ⟨acc, st, calls, false⟩
  | fuel + 1, st, calls, acc =>
      if st.stop = st.len - 1 then ⟨acc, st, calls, true⟩
      else
        match fetch calls (st.stop + 1) (st.stop + (w : Int)) with
        | none =>
            rangedReadGo w key nm fetch fuel st (calls + 1)
              (acc ++ [Action.getObject key (st.stop + 1) (st.stop + (w : Int))])
        | some f =>
            rangedReadGo w key nm fetch fuel ⟨f.rStart, f.rEnd, f.rLen⟩ (calls + 1)
              (acc ++ [Action.getObject key (st.stop + 1) (st.stop + (w : Int)),
                       Action.append nm f.body])

/-- The ranged-read loop started from the initial fileRangeAndLength. -/
def rangedRead (w : Nat) (key nm : String) (fetch : Nat → Int → Int → Option Frag)
    (fuel : Nat) : RangedOut :=
  rangedReadGo w key nm fetch fuel initRange 0 []

/-- The archive.append calls recorded in an action trace. -/
def appendsOf (acts : List Action) : List (String × List Nat) :=
  acts.filterMap fun a =>
    match a with
    | Action.append n b => some (n, b)
    | _ => none

/-- The UploadPartCommand calls recorded in an action trace. -/
def uploadPartsOf (acts : List Action) : List (Nat × List Nat) :=
  acts.filterMap fun a =>
    match a with
    | Action.uploadPart n b => some (n, b)
    | _ => none

/-- The PutObjectCommand calls recorded in an action trace. -/
def putsOf (acts : List Action) : List (List Nat) :=
  acts.filterMap fun a =>
    match a with
    | Action.putObject b => some b
    | _ => none

/-- The for loop over the object descriptors (index.ts lines 185-228):
skip entries with an empty key, and run the ranged-read loop for each of the
others.  The Bool is false when some file's loop failed to exit within the
given fuel (the code would spin in that file's while loop). -/
def fetchFilesActs (w : Nat) (fetch : String → Nat → Int → Int → Option Frag) :
    List Desc → Nat → List Action × Bool
  | [], _ => ([], true)
  | f :: rest, fuel =>
      if f.key = "" then fetchFilesActs w fetch rest fuel
      else
        if (rangedRead w f.key (baseName f.key) (fetch f.key) fuel).done then
          ((rangedRead w f.key (baseName f.key) (fetch f.key) fuel).acts
             ++ (fetchFilesActs w fetch rest fuel).1,
           (fetchFilesActs w fetch rest fuel).2)
        else ((rangedRead w f.key (baseName f.key) (fetch f.key) fuel).acts, false)

/-- Variant 1 fetch stage (line 185): iterates the filtered descriptors,
filteredObjects = objects.filter(o => o.Size !== 0) (line 61). -/
def fetchStageV1 (w : Nat) (fetch : String → Nat → Int → Int → Option Frag)
    (files : List Desc) (fuel : Nat) : List Action × Bool :=
  fetchFilesActs w fetch (files.filter fun o => o.size != 0) fuel

/-- Variant 2 fetch stage (line 410): iterates the unfiltered descriptors. -/
def fetchStageV2 (w : Nat) (fetch : String → Nat → Int → Int → Option Frag)
    (files : List Desc) (fuel : Nat) : List Action × Bool :=
  fetchFilesActs w fetch files fuel

/-- State mutated by the passThrough data handler of index.ts lines 87-118:
the chunk accumulation array, the parts array of PartNumber/ETag records,
the actions issued so far, and the number of UploadPartCommand calls sent
(used to index the etag oracle). -/
structure SinkState where
  buffer : List (List Nat)
  parts : List (Nat × String)
  acts : List Action
  nUploads : Nat
deriving DecidableEq, Repr

/-- Initial sink state: parts = [], buffer = [] (lines 70-71). -/
def initSink : SinkState := ⟨[], [], [], 0⟩

/-- buffer.reduce((acc, curr) => acc + curr.length, 0) of lines 89-92. -/
def bufferSize (b : List (List Nat)) : Nat := (b.map List.length).sum

/-- One firing of the passThrough data handler (lines 87-118): push the
chunk; if the accumulated size reached partSize, concat the buffer into one
part body, clear the buffer, upload it as part parts.length + 1, and record
the PartNumber/ETag pair only when the store returned an ETag (line 110). -/
def dataHandler (partSize : Nat) (oracle : Nat → Option String)
    (st : SinkState) (chunk : List Nat) : SinkState :=
  let buf := st.buffer ++ [chunk]
  if partSize ≤ bufferSize buf then
    let pn := st.parts.length + 1
    let parts2 :=
      match oracle st.nUploads with
      | some e => st.parts ++ [(pn, e)]
      | none => st.parts
    ⟨[], parts2, st.acts ++ [Action.uploadPart pn buf.flatten], st.nUploads + 1⟩
  else
    ⟨buf, st.parts, st.acts, st.nUploads⟩

/-- The actions performed by the passThrough end handler (lines 120-183):
if at least one part record exists, upload the remaining buffer (if any) as
one more part and complete the multipart upload with the recorded parts;
otherwise abort the multipart upload and put the accumulated bytes as one
object. -/
def endHandlerActs (oracle : Nat → Option String) (st : SinkState) : List Action :=
  if 0 < st.parts.length then
    if st.buffer ≠ [] then
      let pn := st.parts.length + 1
      let parts2 :=
        match oracle st.nUploads with
        | some e => st.parts ++ [(pn, e)]
        | none => st.parts
      [Action.uploadPart pn st.buffer.flatten, Action.completeMultipart parts2]
    else [Action.completeMultipart st.parts]
  else [Action.abortMultipart, Action.putObject st.buffer.flatten]

/-- Sink state after the data handler has consumed every emitted chunk. -/
def runSinkState (partSize : Nat) (oracle : Nat → Option String)
    (chunks : List (List Nat)) : SinkState :=
  chunks.foldl (dataHandler partSize oracle) initSink

/-- All upload-sink actions of a run, data phase then end handler. -/
def runSinkActs (partSize : Nat) (oracle : Nat → Option String)
    (chunks : List (List Nat)) : List Action :=
  (runSinkState partSize oracle chunks).acts
    ++ endHandlerActs oracle (runSinkState partSize oracle chunks)

/-- Length of the largest chunk in the stream. -/
def maxChunkLen (chunks : List (List Nat)) : Nat :=
  (chunks.map List.length).foldr max 0

/-- Concatenation of the uploaded part bodies, in upload order. -/
def uploadBodiesJoin (acts : List Action) : List Nat :=
  ((uploadPartsOf acts).map (fun p => p.2)).flatten

/-- Lifts a map from keys to object bytes into a per-key fetch oracle. -/
def honestStoreFetch (store : String → List Nat) :
    String → Nat → Int → Int → Option Frag :=
  fun k => honestFetch (store k)

/-- Variant 1 handler (index.ts lines 25-238) after the listing loop, as a
function of the accumulated listing result, whether the listing threw
(listFailed: the catch block responds 500 but does not return, line 46-52),
the CreateMultipartUpload result, the fetch oracle, the archive encoder
(external collaborator mapping the appended entries to the emitted chunk
stream) and the UploadPart etag oracle.  Returns the main trace (which ends
with the 200 response sent right after archive.finalize(), line 234) and the
actions of the asynchronous passThrough end handler, which the main flow
never awaits. -/
def handlerV1 (listAcc : List Desc) (listFailed : Bool) (uploadId : Option String)
    (fetch : String → Nat → Int → Int → Option Frag)
    (encoder : List (String × List Nat) → List (List Nat))
    (oracle : Nat → Option String) (fuel : Nat) : List Action × List Action :=
  let pre := if listFailed then [Action.respond 500] else []
  if listAcc.length = 0 then (pre ++ [Action.respond 400], [])
  else
    match uploadId with
    | none => (pre ++ [Action.createMultipart, Action.respond 500], [])
    | some _ =>
        let fo := fetchStageV1 streamObjectSize fetch listAcc fuel
        if fo.2 then
          let st := runSinkState partSizeDefault oracle (encoder (appendsOf fo.1))
          (pre ++ [Action.createMultipart] ++ fo.1 ++ st.acts ++ [Action.respond 200],
           endHandlerActs oracle st)
        else (pre ++ [Action.createMultipart] ++ fo.1, [])

/-- A ListObjectsV2 response: Contents, IsTruncated, NextContinuationToken. -/
structure ListResp where
  contents : List Desc
  isTruncated : Bool
  nextToken : Option Nat
deriving DecidableEq, Repr

/-- Honest paginated store: token none (or 0) yields the first page; page i
is truncated exactly when a further page exists, and NextContinuationToken
points at it. -/
def pagedStore (pages : List (List Desc)) : Option Nat → ListResp :=
  fun t =>
    let i := t.getD 0
    ⟨pages.getD i [], decide (i + 1 < pages.length), some (i + 1)⟩

/-- The listing loop of index.ts lines 31-45, with explicit fuel.  Faithful
to the source, every request is sent without a ContinuationToken (the
ListObjectsV2Command of lines 36-40 sets only Bucket, Prefix and MaxKeys),
the page contents are pushed onto the accumulator, and isTruncated is taken
from the response.  Returns the final isTruncated flag, the accumulated
descriptors, and the token attached to each issued request. -/
def listLoopGo (store : Option Nat → ListResp) :
    Nat → Bool → List Desc → List (Option Nat) → Bool × List Desc × List (Option Nat)
  | 0, tr, acc, reqs => (tr, acc, reqs)
  | fuel + 1, tr, acc, reqs =>
      if tr then
        listLoopGo store fuel (store none).isTruncated (acc ++ (store none).contents)
          (reqs ++ [none])
      else (tr, acc, reqs)

/-- Valid executions of two concurrently pending action sequences: any
order-preserving interleaving.  Used for the main trace and the un-awaited
end-handler trace of handlerV1. -/
inductive Interleave : List Action → List Action → List Action → Prop
  | nil : Interleave [] [] []
  | left {a xs ys zs} : Interleave xs ys zs → Interleave (a :: xs) ys (a :: zs)
  | right {a xs ys zs} : Interleave xs ys zs → Interleave xs (a :: ys) (a :: zs)

end ZipThing

namespace ZipThing

/-- Numbering and accounting invariant of the upload sink state: part
numbers in the actions issued so far are exactly 1..k, the parts record
array has one entry per issued upload, the upload counter agrees, and no
PutObject was issued during the data phase. -/
def SinkNum (st : SinkState) : Prop :=
  (uploadPartsOf st.acts).map (fun p => p.1)
      = List.range' 1 (uploadPartsOf st.acts).length
  ∧ st.parts.length = (uploadPartsOf st.acts).length
  ∧ st.nUploads = (uploadPartsOf st.acts).length
  ∧ putsOf st.acts = []

/-- Size invariant of the upload sink: between handler firings the buffer
holds strictly less than one part size, and every part cut so far is
strictly smaller than partSize plus the bound on the chunk sizes. -/
def SinkBound (partSize M : Nat) (st : SinkState) : Prop :=
  bufferSize st.buffer < partSize
  ∧ ∀ p ∈ uploadPartsOf st.acts, p.2.length < partSize + M

/-- The fixed object set of the spec scenario: sizes 0, 2 MiB and 1 KiB. -/
def scenFiles : List Desc :=
  [⟨"t/z", 0⟩, ⟨"t/b", 2 * 1024 * 1024⟩, ⟨"t/c", 1024⟩]

/-- Byte contents of the scenario objects. -/
def scenStore : String → List Nat :=
  fun k =>
    if k = "t/b" then List.replicate (2 * 1024 * 1024) 7
    else if k = "t/c" then List.replicate 1024 9
    else []

/-! Extractor lemmas. -/

@[simp] theorem uploadPartsOf_nil : uploadPartsOf [] = [] := rfl

@[simp] theorem putsOf_nil : putsOf [] = [] := rfl

@[simp] theorem appendsOf_nil : appendsOf [] = [] := rfl

@[simp] theorem uploadPartsOf_append (xs ys : List Action) :
    uploadPartsOf (xs ++ ys) = uploadPartsOf xs ++ uploadPartsOf ys :=
  List.filterMap_append xs ys _

@[simp] theorem putsOf_append (xs ys : List Action) :
    putsOf (xs ++ ys) = putsOf xs ++ putsOf ys :=
  List.filterMap_append xs ys _

@[simp] theorem appendsOf_append (xs ys : List Action) :
    appendsOf (xs ++ ys) = appendsOf xs ++ appendsOf ys :=
  List.filterMap_append xs ys _

@[simp] theorem uploadPartsOf_uploadPart (n : Nat) (b : List Nat) (rest : List Action) :
    uploadPartsOf (Action.uploadPart n b :: rest) = (n, b) :: uploadPartsOf rest := rfl

@[simp] theorem uploadPartsOf_complete (ps : List (Nat × String)) (rest : List Action) :
    uploadPartsOf (Action.completeMultipart ps :: rest) = uploadPartsOf rest := rfl

@[simp] theorem uploadPartsOf_abort (rest : List Action) :
    uploadPartsOf (Action.abortMultipart :: rest) = uploadPartsOf rest := rfl

@[simp] theorem uploadPartsOf_put (b : List Nat) (rest : List Action) :
    uploadPartsOf (Action.putObject b :: rest) = uploadPartsOf rest := rfl

@[simp] theorem putsOf_uploadPart (n : Nat) (b : List Nat) (rest : List Action) :
    putsOf (Action.uploadPart n b :: rest) = putsOf rest := rfl

@[simp] theorem putsOf_complete (ps : List (Nat × String)) (rest : List Action) :
    putsOf (Action.completeMultipart ps :: rest) = putsOf rest := rfl

@[simp] theorem putsOf_abort (rest : List Action) :
    putsOf (Action.abortMultipart :: rest) = putsOf rest := rfl

@[simp] theorem putsOf_put (b : List Nat) (rest : List Action) :
    putsOf (Action.putObject b :: rest) = b :: putsOf rest := rfl

@[simp] theorem appendsOf_getObject (k : String) (s e : Int) (rest : List Action) :
    appendsOf (Action.getObject k s e :: rest) = appendsOf rest := rfl

@[simp] theorem appendsOf_append_entry (n : String) (b : List Nat) (rest : List Action) :
    appendsOf (Action.append n b :: rest) = (n, b) :: appendsOf rest := rfl

/-! Buffer size lemmas. -/

@[simp] theorem bufferSize_nil : bufferSize [] = 0 := rfl

@[simp] theorem bufferSize_append (a b : List (List Nat)) :
    bufferSize (a ++ b) = bufferSize a + bufferSize b := by
  simp [bufferSize]

@[simp] theorem bufferSize_cons (c : List Nat) (b : List (List Nat)) :
    bufferSize (c :: b) = c.length + bufferSize b := by
  simp [bufferSize]

theorem range'_one_concat (n : Nat) :
    List.range' 1 (n + 1) = List.range' 1 n ++ [n + 1] := by
  rw [List.range'_concat]
  simp [Nat.add_comm]

theorem sinkNum_init : SinkNum initSink := by
  refine ⟨?_, ?_, ?_, ?_⟩ <;> simp [initSink]

theorem dataHandler_eq_noCut (partSize : Nat) (oracle : Nat → Option String)
    (st : SinkState) (c : List Nat)
    (h : ¬ partSize ≤ bufferSize (st.buffer ++ [c])) :
    dataHandler partSize oracle st c
      = ⟨st.buffer ++ [c], st.parts, st.acts, st.nUploads⟩ := by
  unfold dataHandler
  rw [if_neg h]

theorem dataHandler_eq_cut (partSize : Nat) (oracle : Nat → Option String)
    (st : SinkState) (c : List Nat) (e : String)
    (h : partSize ≤ bufferSize (st.buffer ++ [c]))
    (he : oracle st.nUploads = some e) :
    dataHandler partSize oracle st c
      = ⟨[], st.parts ++ [(st.parts.length + 1, e)],
          st.acts ++ [Action.uploadPart (st.parts.length + 1) (st.buffer ++ [c]).flatten],
          st.nUploads + 1⟩ := by
  unfold dataHandler
  rw [if_pos h, he]

theorem dataHandler_num (partSize : Nat) (oracle : Nat → Option String)
    (horc : ∀ n, (oracle n).isSome = true) (st : SinkState) (c : List Nat)
    (h : SinkNum st) :
    SinkNum (dataHandler partSize oracle st c)
    ∧ uploadBodiesJoin (dataHandler partSize oracle st c).acts
        ++ (dataHandler partSize oracle st c).buffer.flatten
      = uploadBodiesJoin st.acts ++ st.buffer.flatten ++ c := by
  obtain ⟨h1, h2, h3, h4⟩ := h
  by_cases hcut : partSize ≤ bufferSize (st.buffer ++ [c])
  · obtain ⟨e, he⟩ := Option.isSome_iff_exists.mp (horc st.nUploads)
    rw [dataHandler_eq_cut partSize oracle st c e hcut he]
    refine ⟨⟨?_, ?_, ?_, ?_⟩, ?_⟩
    · simp only [uploadPartsOf_append, uploadPartsOf_uploadPart, uploadPartsOf_nil,
        List.map_append, List.length_append, List.length_cons, List.length_nil]
      rw [h1, h2, range'_one_concat]
      simp
    · simp [h2]
    · simp [h3, h2]
    · simp [h4]
    · simp only [uploadBodiesJoin, uploadPartsOf_append, uploadPartsOf_uploadPart,
        uploadPartsOf_nil, List.map_append, List.flatten_append]
      simp [uploadBodiesJoin]
  · rw [dataHandler_eq_noCut partSize oracle st c hcut]
    refine ⟨⟨h1, h2, h3, h4⟩, ?_⟩
    simp

theorem sinkFold_num (partSize : Nat) (oracle : Nat → Option String)
    (horc : ∀ n, (oracle n).isSome = true) :
    ∀ (chunks : List (List Nat)) (st : SinkState), SinkNum st →
      SinkNum (chunks.foldl (dataHandler partSize oracle) st)
      ∧ uploadBodiesJoin (chunks.foldl (dataHandler partSize oracle) st).acts
          ++ (chunks.foldl (dataHandler partSize oracle) st).buffer.flatten
        = uploadBodiesJoin st.acts ++ st.buffer.flatten ++ chunks.flatten := by
  intro chunks
  induction chunks with
  | nil => intro st h; exact ⟨h, by simp⟩
  | cons c rest ih =>
      intro st h
      have hd := dataHandler_num partSize oracle horc st c h
      have hr := ih _ hd.1
      refine ⟨hr.1, ?_⟩
      rw [List.foldl_cons] at *
      rw [hr.2, hd.2]
      simp [List.append_assoc]

/-- If the whole stream is smaller than one part size, the data handler
never cuts a part: the final state holds every chunk in the buffer. -/
theorem sinkFold_noCut (partSize : Nat) (oracle : Nat → Option String) :
    ∀ (chunks : List (List Nat)) (st : SinkState),
      bufferSize st.buffer + (chunks.map List.length).sum < partSize →
      chunks.foldl (dataHandler partSize oracle) st
        = ⟨st.buffer ++ chunks, st.parts, st.acts, st.nUploads⟩ := by
  intro chunks
  induction chunks with
  | nil => intro st _; cases st; simp
  | cons c rest ih =>
      intro st h
      rw [List.foldl_cons]
      have hc : (c :: rest).map List.length = c.length :: rest.map List.length := rfl
      rw [hc, List.sum_cons] at h
      have hnot : ¬ partSize ≤ bufferSize (st.buffer ++ [c]) := by
        simp only [bufferSize_append, bufferSize_cons, bufferSize_nil]
        omega
      rw [dataHandler_eq_noCut partSize oracle st c hnot]
      have := ih ⟨st.buffer ++ [c], st.parts, st.acts, st.nUploads⟩ (by
        simp only [bufferSize_append, bufferSize_cons, bufferSize_nil]
        omega)
      rw [this]
      simp

end ZipThing

namespace ZipThing

theorem dataHandler_eq_cut_none (partSize : Nat) (oracle : Nat → Option String)
    (st : SinkState) (c : List Nat)
    (h : partSize ≤ bufferSize (st.buffer ++ [c]))
    (he : oracle st.nUploads = none) :
    dataHandler partSize oracle st c
      = ⟨[], st.parts,
          st.acts ++ [Action.uploadPart (st.parts.length + 1) (st.buffer ++ [c]).flatten],
          st.nUploads + 1⟩ := by
  unfold dataHandler
  rw [if_pos h, he]

theorem endHandlerActs_eq_flush (oracle : Nat → Option String) (st : SinkState) (e : String)
    (hk : 0 < st.parts.length) (hb : st.buffer ≠ [])
    (he : oracle st.nUploads = some e) :
    endHandlerActs oracle st
      = [Action.uploadPart (st.parts.length + 1) st.buffer.flatten,
         Action.completeMultipart (st.parts ++ [(st.parts.length + 1, e)])] := by
  unfold endHandlerActs
  rw [if_pos hk, if_pos hb, he]

theorem endHandlerActs_eq_flush_none (oracle : Nat → Option String) (st : SinkState)
    (hk : 0 < st.parts.length) (hb : st.buffer ≠ [])
    (he : oracle st.nUploads = none) :
    endHandlerActs oracle st
      = [Action.uploadPart (st.parts.length + 1) st.buffer.flatten,
         Action.completeMultipart st.parts] := by
  unfold endHandlerActs
  rw [if_pos hk, if_pos hb, he]

theorem endHandlerActs_eq_complete (oracle : Nat → Option String) (st : SinkState)
    (hk : 0 < st.parts.length) (hb : ¬ st.buffer ≠ []) :
    endHandlerActs oracle st = [Action.completeMultipart st.parts] := by
  unfold endHandlerActs
  rw [if_pos hk, if_neg hb]

theorem endHandlerActs_eq_fallback (oracle : Nat → Option String) (st : SinkState)
    (hk : ¬ 0 < st.parts.length) :
    endHandlerActs oracle st
      = [Action.abortMultipart, Action.putObject st.buffer.flatten] := by
  unfold endHandlerActs
  rw [if_neg hk]

theorem runSinkState_spec (partSize : Nat) (oracle : Nat → Option String)
    (chunks : List (List Nat)) (horc : ∀ n, (oracle n).isSome = true) :
    SinkNum (runSinkState partSize oracle chunks)
    ∧ uploadBodiesJoin (runSinkState partSize oracle chunks).acts
        ++ (runSinkState partSize oracle chunks).buffer.flatten
      = chunks.flatten := by
  have h := sinkFold_num partSize oracle horc chunks initSink sinkNum_init
  refine ⟨h.1, ?_⟩
  have h2 := h.2
  simpa [initSink, uploadBodiesJoin, runSinkState] using h2

end ZipThing

namespace ZipThing

/-- Claim C1: for every run of the upload sink (any chunk stream emitted by
the archive encoder, so in particular regardless of the order in which the
fetches completed and appended), when the remote store assigns an etag to
every uploaded part, the byte-concatenation of the uploaded parts in
ascending partNumber order together with the single-shot fallback body (one
of the two is always empty) is byte-identical to the archive output stream;
the uploaded part numbers are exactly 1, 2, ..., k with no reuse and no gap;
and whenever at least one part was uploaded, the concatenation of the part
bodies alone equals the full stream. -/
theorem claim1_parts_concat (partSize : Nat) (oracle : Nat → Option String)
    (chunks : List (List Nat)) (horc : ∀ n, (oracle n).isSome = true) :
    uploadBodiesJoin (runSinkActs partSize oracle chunks)
        ++ (putsOf (runSinkActs partSize oracle chunks)).flatten = chunks.flatten
    ∧ (uploadPartsOf (runSinkActs partSize oracle chunks)).map (fun p => p.1)
        = List.range' 1 (uploadPartsOf (runSinkActs partSize oracle chunks)).length
    ∧ (uploadPartsOf (runSinkActs partSize oracle chunks) ≠ [] →
        uploadBodiesJoin (runSinkActs partSize oracle chunks) = chunks.flatten) := by
  obtain ⟨⟨h1, h2, h3, h4⟩, hjoin⟩ := runSinkState_spec partSize oracle chunks horc
  set st := runSinkState partSize oracle chunks with hst
  by_cases hk : 0 < st.parts.length
  · by_cases hb : st.buffer ≠ []
    · obtain ⟨e, he⟩ := Option.isSome_iff_exists.mp (horc st.nUploads)
      have hend := endHandlerActs_eq_flush oracle st e hk hb he
      rw [runSinkActs, ← hst, hend]
      refine ⟨?_, ?_, ?_⟩
      · simp only [uploadBodiesJoin, uploadPartsOf_append, uploadPartsOf_uploadPart,
          uploadPartsOf_complete, uploadPartsOf_nil, putsOf_append, putsOf_uploadPart,
          putsOf_complete, putsOf_nil, h4, List.map_append, List.flatten_append,
          List.append_nil]
        simpa [uploadBodiesJoin] using hjoin
      · simp only [uploadPartsOf_append, uploadPartsOf_uploadPart, uploadPartsOf_complete,
          uploadPartsOf_nil, List.map_append, List.length_append, List.length_cons,
          List.length_nil]
        rw [h1, h2, range'_one_concat]
        simp
      · intro _
        simp only [uploadBodiesJoin, uploadPartsOf_append, uploadPartsOf_uploadPart,
          uploadPartsOf_complete, uploadPartsOf_nil, List.map_append, List.flatten_append]
        simpa [uploadBodiesJoin] using hjoin
    · have hbe : st.buffer = [] := not_not.mp hb
      have hend := endHandlerActs_eq_complete oracle st hk hb
      rw [runSinkActs, ← hst, hend]
      rw [hbe] at hjoin
      simp only [List.flatten_nil, List.append_nil] at hjoin
      refine ⟨?_, ?_, ?_⟩
      · simp only [uploadBodiesJoin, uploadPartsOf_append, uploadPartsOf_complete,
          uploadPartsOf_nil, putsOf_append, putsOf_complete, putsOf_nil, h4,
          List.append_nil]
        simpa [uploadBodiesJoin] using hjoin
      · simp only [uploadPartsOf_append, uploadPartsOf_complete, uploadPartsOf_nil,
          List.append_nil]
        exact h1
      · intro _
        simp only [uploadBodiesJoin, uploadPartsOf_append, uploadPartsOf_complete,
          uploadPartsOf_nil, List.append_nil]
        simpa [uploadBodiesJoin] using hjoin
  · have hups : uploadPartsOf st.acts = [] := by
      have : (uploadPartsOf st.acts).length = 0 := by omega
      exact List.length_eq_zero.mp this
    have hend := endHandlerActs_eq_fallback oracle st hk
    rw [runSinkActs, ← hst, hend]
    have hbuf : st.buffer.flatten = chunks.flatten := by
      simpa [uploadBodiesJoin, hups] using hjoin
    refine ⟨?_, ?_, ?_⟩
    · simp [uploadBodiesJoin, hups, hbuf, h4]
    · simp [hups]
    · intro hne
      exact absurd (by simp [hups]) hne

/-- Witness for claim C1 at a concrete run: a stream of two small chunks
under the code's 5 MiB part size goes out entirely through the single-shot
fallback, and the part-number list is the empty initial segment. -/
theorem claim1_parts_concat_witness :
    uploadBodiesJoin (runSinkActs partSizeDefault (fun _ => some "e") [[1], [2, 3]])
        ++ (putsOf (runSinkActs partSizeDefault (fun _ => some "e") [[1], [2, 3]])).flatten
      = [[1], [2, 3]].flatten
    ∧ (uploadPartsOf (runSinkActs partSizeDefault (fun _ => some "e") [[1], [2, 3]])).map
          (fun p => p.1)
        = List.range' 1
            (uploadPartsOf (runSinkActs partSizeDefault (fun _ => some "e") [[1], [2, 3]])).length
    ∧ (uploadPartsOf (runSinkActs partSizeDefault (fun _ => some "e") [[1], [2, 3]]) ≠ [] →
        uploadBodiesJoin (runSinkActs partSizeDefault (fun _ => some "e") [[1], [2, 3]])
          = [[1], [2, 3]].flatten) :=
  claim1_parts_concat partSizeDefault (fun _ => some "e") [[1], [2, 3]] (fun _ => rfl)

/-- Claim C5: when the total archive output is smaller than one part size,
no part is ever cut, the multipart session is aborted, and the accumulated
bytes go out as one single-shot PutObject; the session is not completed and
hence never left open. -/
theorem claim5_small_output_fallback (partSize : Nat) (oracle : Nat → Option String)
    (chunks : List (List Nat))
    (h : (chunks.map List.length).sum < partSize) :
    runSinkActs partSize oracle chunks
      = [Action.abortMultipart, Action.putObject chunks.flatten] := by
  have h0 : runSinkState partSize oracle chunks = ⟨chunks, [], [], 0⟩ := by
    have := sinkFold_noCut partSize oracle chunks initSink (by
      simpa [initSink] using h)
    simpa [initSink, runSinkState] using this
  rw [runSinkActs, h0, endHandlerActs_eq_fallback _ _ (by simp)]
  simp

/-- Witness for claim C5: a 3-byte archive stream under the code's 5 MiB
part size is uploaded by abort-then-put of exactly those bytes. -/
theorem claim5_small_output_fallback_witness :
    (([[1], [2, 3]] : List (List Nat)).map List.length).sum < partSizeDefault
    ∧ runSinkActs partSizeDefault (fun _ => some "e") [[1], [2, 3]]
        = [Action.abortMultipart, Action.putObject [1, 2, 3]] :=
  ⟨by decide,
   by
    have := claim5_small_output_fallback partSizeDefault (fun _ => some "e")
      [[1], [2, 3]] (by decide)
    simpa using this⟩

end ZipThing

namespace ZipThing

theorem flatten_length_eq_bufferSize (b : List (List Nat)) :
    b.flatten.length = bufferSize b := by
  simp [bufferSize, List.length_flatten]

theorem le_maxChunkLen (chunks : List (List Nat)) :
    ∀ c ∈ chunks, c.length ≤ maxChunkLen chunks := by
  induction chunks with
  | nil => simp
  | cons c rest ih =>
      intro d hd
      rcases List.mem_cons.mp hd with h | h
      · subst h
        simp [maxChunkLen]
      · calc d.length ≤ maxChunkLen rest := ih d h
          _ ≤ maxChunkLen (c :: rest) := by simp [maxChunkLen]

theorem dataHandler_bound (partSize M : Nat) (oracle : Nat → Option String)
    (hp : 0 < partSize) (st : SinkState) (c : List Nat) (hc : c.length ≤ M)
    (h : SinkBound partSize M st) :
    SinkBound partSize M (dataHandler partSize oracle st c) := by
  obtain ⟨h1, h2⟩ := h
  by_cases hcut : partSize ≤ bufferSize (st.buffer ++ [c])
  · have hlen : (st.buffer ++ [c]).flatten.length < partSize + M := by
      rw [flatten_length_eq_bufferSize]
      simp only [bufferSize_append, bufferSize_cons, bufferSize_nil]
      omega
    rcases he : oracle st.nUploads with _ | e
    · rw [dataHandler_eq_cut_none partSize oracle st c hcut he]
      refine ⟨by simpa using hp, ?_⟩
      intro p hpmem
      simp only [uploadPartsOf_append, uploadPartsOf_uploadPart, uploadPartsOf_nil,
        List.mem_append, List.mem_cons, List.not_mem_nil, or_false] at hpmem
      rcases hpmem with hpmem | hpmem
      · exact h2 p hpmem
      · subst hpmem; exact hlen
    · rw [dataHandler_eq_cut partSize oracle st c e hcut he]
      refine ⟨by simpa using hp, ?_⟩
      intro p hpmem
      simp only [uploadPartsOf_append, uploadPartsOf_uploadPart, uploadPartsOf_nil,
        List.mem_append, List.mem_cons, List.not_mem_nil, or_false] at hpmem
      rcases hpmem with hpmem | hpmem
      · exact h2 p hpmem
      · subst hpmem; exact hlen
  · rw [dataHandler_eq_noCut partSize oracle st c hcut]
    refine ⟨?_, h2⟩
    simp only [bufferSize_append, bufferSize_cons, bufferSize_nil] at hcut ⊢
    omega

theorem sinkFold_bound (partSize M : Nat) (oracle : Nat → Option String)
    (hp : 0 < partSize) :
    ∀ (chunks : List (List Nat)) (st : SinkState),
      (∀ c ∈ chunks, c.length ≤ M) → SinkBound partSize M st →
      SinkBound partSize M (chunks.foldl (dataHandler partSize oracle) st) := by
  intro chunks
  induction chunks with
  | nil => intro st _ h; exact h
  | cons c rest ih =>
      intro st hc h
      rw [List.foldl_cons]
      exact ih _ (fun d hd => hc d (List.mem_cons_of_mem c hd))
        (dataHandler_bound partSize M oracle hp st c (hc c (List.mem_cons_self c rest)) h)

/-- Claim C9 counterexample: under the code's configured 5 MiB part size, a
single archive chunk of 5 MiB + 1 bytes is cut into one UploadPart whose
body exceeds the configured part size, refuting "bytes cut into the
uploaded part never exceed that configured size". -/
theorem claim9_counterexample :
    ¬ ∀ p ∈ uploadPartsOf (runSinkActs partSizeDefault (fun _ => some "e")
          [List.replicate (partSizeDefault + 1) 0]),
        p.2.length ≤ partSizeDefault := by
  intro hall
  have hcut : partSizeDefault ≤ bufferSize (initSink.buffer ++ [List.replicate (partSizeDefault + 1) 0]) := by
    simp [initSink, bufferSize]
  have hst : runSinkState partSizeDefault (fun _ => some "e")
      [List.replicate (partSizeDefault + 1) 0]
      = ⟨[], [(1, "e")], [Action.uploadPart 1 (List.replicate (partSizeDefault + 1) 0)], 1⟩ := by
    rw [runSinkState, List.foldl_cons, List.foldl_nil,
      dataHandler_eq_cut partSizeDefault _ initSink _ "e" hcut rfl]
    simp [initSink]
  have hacts : runSinkActs partSizeDefault (fun _ => some "e")
      [List.replicate (partSizeDefault + 1) 0]
      = [Action.uploadPart 1 (List.replicate (partSizeDefault + 1) 0),
         Action.completeMultipart [(1, "e")]] := by
    rw [runSinkActs, hst, endHandlerActs_eq_complete _ _ (by simp) (by simp)]
    simp
  have hmem : (1, List.replicate (partSizeDefault + 1) 0)
      ∈ uploadPartsOf (runSinkActs partSizeDefault (fun _ => some "e")
          [List.replicate (partSizeDefault + 1) 0]) := by
    rw [hacts]
    simp
  have := hall _ hmem
  simp only [List.length_replicate] at this
  omega

/-- Claim C9 as amended: each cut UploadPart body is exactly the accumulated
buffer, which may exceed the configured part size; it is always strictly
smaller than the configured part size plus the largest chunk the archive
stream ever emitted (and the final flushed remainder is smaller than the
part size itself). -/
theorem claim9_amended (partSize : Nat) (oracle : Nat → Option String)
    (chunks : List (List Nat)) (hp : 0 < partSize) :
    ∀ p ∈ uploadPartsOf (runSinkActs partSize oracle chunks),
      p.2.length < partSize + maxChunkLen chunks := by
  have hfold := sinkFold_bound partSize (maxChunkLen chunks) oracle hp chunks initSink
    (le_maxChunkLen chunks) ⟨by simpa [initSink] using hp, by simp [initSink]⟩
  set st := chunks.foldl (dataHandler partSize oracle) initSink with hstdef
  have hsteq : runSinkState partSize oracle chunks = st := rfl
  obtain ⟨hb, hparts⟩ := hfold
  intro p hpmem
  rw [runSinkActs, hsteq] at hpmem
  rw [uploadPartsOf_append] at hpmem
  rcases List.mem_append.mp hpmem with hmem | hmem
  · exact hparts p hmem
  · have hflush : p.2.length = bufferSize st.buffer := by
      by_cases hk : 0 < st.parts.length
      · by_cases hbuf : st.buffer ≠ []
        · rcases he : oracle st.nUploads with _ | e
          · rw [endHandlerActs_eq_flush_none oracle st hk hbuf he] at hmem
            simp only [uploadPartsOf_uploadPart, uploadPartsOf_complete,
              uploadPartsOf_nil, List.mem_cons, List.not_mem_nil, or_false] at hmem
            rw [hmem]
            exact flatten_length_eq_bufferSize st.buffer
          · rw [endHandlerActs_eq_flush oracle st e hk hbuf he] at hmem
            simp only [uploadPartsOf_uploadPart, uploadPartsOf_complete,
              uploadPartsOf_nil, List.mem_cons, List.not_mem_nil, or_false] at hmem
            rw [hmem]
            exact flatten_length_eq_bufferSize st.buffer
        · rw [endHandlerActs_eq_complete oracle st hk hbuf] at hmem
          simp at hmem
      · rw [endHandlerActs_eq_fallback oracle st hk] at hmem
        simp at hmem
    omega

end ZipThing

namespace ZipThing

/-- Witness for the amended claim C9 at a concrete cut: with part size 2 the
3-byte chunk is cut into a part of 3 bytes, within the proven bound. -/
theorem claim9_amended_witness :
    ([1, 2, 3] : List Nat).length < 2 + maxChunkLen [[1, 2, 3]] :=
  claim9_amended 2 (fun _ => some "e") [[1, 2, 3]] (by decide)
    (1, [1, 2, 3]) (by decide)

end ZipThing

namespace ZipThing

theorem rangedReadGo_done (w : Nat) (key nm : String)
    (fetch : Nat → Int → Int → Option Frag) (st : RangeState) (calls : Nat)
    (acc : List Action) (h : st.stop = st.len - 1) :
    ∀ fuel, rangedReadGo w key nm fetch fuel st calls acc = ⟨acc, st, calls, true⟩ := by
  intro fuel
  cases fuel with
  | zero => rw [rangedReadGo, if_pos h]
  | succ n => rw [rangedReadGo, if_pos h]

theorem rangedReadGo_step_some (w : Nat) (key nm : String)
    (fetch : Nat → Int → Int → Option Frag) (fuel : Nat) (st : RangeState)
    (calls : Nat) (acc : List Action) (f : Frag)
    (hne : ¬ st.stop = st.len - 1)
    (hf : fetch calls (st.stop + 1) (st.stop + (w : Int)) = some f) :
    rangedReadGo w key nm fetch (fuel + 1) st calls acc
      = rangedReadGo w key nm fetch fuel ⟨f.rStart, f.rEnd, f.rLen⟩ (calls + 1)
          (acc ++ [Action.getObject key (st.stop + 1) (st.stop + (w : Int)),
                   Action.append nm f.body]) := by
  rw [rangedReadGo, if_neg hne, hf]

theorem rangedReadGo_step_none (w : Nat) (key nm : String)
    (fetch : Nat → Int → Int → Option Frag) (fuel : Nat) (st : RangeState)
    (calls : Nat) (acc : List Action)
    (hne : ¬ st.stop = st.len - 1)
    (hf : fetch calls (st.stop + 1) (st.stop + (w : Int)) = none) :
    rangedReadGo w key nm fetch (fuel + 1) st calls acc
      = rangedReadGo w key nm fetch fuel st (calls + 1)
          (acc ++ [Action.getObject key (st.stop + 1) (st.stop + (w : Int))]) := by
  rw [rangedReadGo, if_neg hne, hf]

/-- Main lemma about the ranged-read loop against an honest range store:
starting with d bytes already consumed (reported end d - 1), the loop
terminates, issues one GetObject and one append per remaining fragment, and
the fragments concatenate to the remaining bytes of the object. -/
theorem rangedReadGo_honest (w : Nat) (key nm : String) (obj : List Nat) (hw : 0 < w) :
    ∀ (fuel d : Nat) (st : RangeState) (calls : Nat) (acc : List Action),
      st.stop = (d : Int) - 1 → st.stop ≠ st.len - 1 →
      d < obj.length → (obj.length - d + w - 1) / w ≤ fuel →
      ∃ (newActs : List Action) (frags : List (List Nat)) (s2 : Int),
        rangedReadGo w key nm (honestFetch obj) fuel st calls acc
          = ⟨acc ++ newActs, ⟨s2, (obj.length : Int) - 1, (obj.length : Int)⟩,
             calls + frags.length, true⟩
        ∧ appendsOf newActs = frags.map (fun b => (nm, b))
        ∧ (∀ a ∈ newActs,
            (∃ s e, a = Action.getObject key s e) ∨ ∃ b, a = Action.append nm b)
        ∧ frags.flatten = obj.drop d
        ∧ frags ≠ []
        ∧ frags.length = (obj.length - d + w - 1) / w := by
  intro fuel
  induction fuel with
  | zero =>
      intro d st calls acc h1 h2 h3 h4
      have hone : 1 ≤ (obj.length - d + w - 1) / w :=
        (Nat.le_div_iff_mul_le hw).mpr (by omega)
      omega
  | succ fuel ih =>
      intro d st calls acc h1 h2 h3 h4
      obtain ⟨sa, sb, sl⟩ := st
      simp only at h1 h2
      subst h1
      have hguard : (0 : Int) ≤ ((d : Int) - 1) + 1
          ∧ ((d : Int) - 1) + 1 < (obj.length : Int) := by
        constructor
        · omega
        · omega
      have htonat : (((d : Int) - 1) + 1).toNat = d := by omega
      by_cases hcase : obj.length ≤ d + w
      · have hmin : min (((d : Int) - 1) + (w : Int)) ((obj.length : Int) - 1)
            = (obj.length : Int) - 1 := by
          apply min_eq_right
          omega
        have htake : (((obj.length : Int) - 1) - (((d : Int) - 1) + 1) + 1).toNat
            = obj.length - d := by omega
        have hbody : (obj.drop d).take (obj.length - d) = obj.drop d := by
          conv_lhs => rw [← List.length_drop]
          exact List.take_length (obj.drop d)
        have hfetch : honestFetch obj calls (((d : Int) - 1) + 1) (((d : Int) - 1) + (w : Int))
            = some ⟨obj.drop d, ((d : Int) - 1) + 1, (obj.length : Int) - 1,
                    (obj.length : Int)⟩ := by
          unfold honestFetch
          rw [if_pos hguard, hmin, htake, htonat, hbody]
        rw [rangedReadGo_step_some w key nm (honestFetch obj) fuel
          ⟨sa, (d : Int) - 1, sl⟩ calls acc _ h2 hfetch]
        dsimp only
        rw [rangedReadGo_done w key nm (honestFetch obj)
          ⟨((d : Int) - 1) + 1, (obj.length : Int) - 1, (obj.length : Int)⟩
          (calls + 1) _ (by simp)]
        refine ⟨[Action.getObject key (((d : Int) - 1) + 1) (((d : Int) - 1) + (w : Int)),
                 Action.append nm (obj.drop d)], [obj.drop d], ((d : Int) - 1) + 1,
                ?_, ?_, ?_, ?_, ?_, ?_⟩
        · simp
        · simp
        · intro a ha
          rcases List.mem_cons.mp ha with h | h
          · exact Or.inl ⟨_, _, h⟩
          · simp only [List.mem_cons, List.not_mem_nil, or_false] at h
            exact Or.inr ⟨_, h⟩
        · simp
        · simp
        · have harg : obj.length - d + w - 1 = (obj.length - d - 1) + w := by omega
          rw [harg, Nat.add_div_right _ hw, Nat.div_eq_of_lt (by omega)]
          simp
      · have hmin : min (((d : Int) - 1) + (w : Int)) ((obj.length : Int) - 1)
            = ((d : Int) - 1) + (w : Int) := by
          apply min_eq_left
          omega
        have htake : ((((d : Int) - 1) + (w : Int)) - (((d : Int) - 1) + 1) + 1).toNat
            = w := by omega
        have hfetch : honestFetch obj calls (((d : Int) - 1) + 1) (((d : Int) - 1) + (w : Int))
            = some ⟨(obj.drop d).take w, ((d : Int) - 1) + 1, ((d : Int) - 1) + (w : Int),
                    (obj.length : Int)⟩ := by
          unfold honestFetch
          rw [if_pos hguard, hmin, htake, htonat]
        rw [rangedReadGo_step_some w key nm (honestFetch obj) fuel
          ⟨sa, (d : Int) - 1, sl⟩ calls acc _ h2 hfetch]
        dsimp only
        have harg2 : obj.length - d + w - 1 = (obj.length - (d + w) + w - 1) + w := by
          omega
        have hquot : (obj.length - d + w - 1) / w
            = (obj.length - (d + w) + w - 1) / w + 1 := by
          rw [harg2, Nat.add_div_right _ hw]
        have hrec := ih (d + w) ⟨((d : Int) - 1) + 1, ((d : Int) - 1) + (w : Int),
            (obj.length : Int)⟩ (calls + 1)
          (acc ++ [Action.getObject key (((d : Int) - 1) + 1) (((d : Int) - 1) + (w : Int)),
                   Action.append nm ((obj.drop d).take w)])
          (by dsimp only; push_cast; omega)
          (by dsimp only; omega)
          (by omega) (by omega)
        obtain ⟨na, fr, s2, heq, happ, hshape, hflat, hne, hlen⟩ := hrec
        rw [heq]
        refine ⟨[Action.getObject key (((d : Int) - 1) + 1) (((d : Int) - 1) + (w : Int)),
                 Action.append nm ((obj.drop d).take w)] ++ na,
                (obj.drop d).take w :: fr, s2, ?_, ?_, ?_, ?_, ?_, ?_⟩
        · simp only [RangedOut.mk.injEq, List.append_assoc, List.length_cons,
            and_true, true_and]
          omega
        · simp [happ]
        · intro a ha
          rcases List.mem_append.mp ha with h | h
          · rcases List.mem_cons.mp h with h | h
            · exact Or.inl ⟨_, _, h⟩
            · simp only [List.mem_cons, List.not_mem_nil, or_false] at h
              exact Or.inr ⟨_, h⟩
          · exact hshape a h
        · rw [List.flatten_cons, hflat]
          have hdd : obj.drop (d + w) = (obj.drop d).drop w := by
            rw [List.drop_drop]
          rw [hdd]
          exact List.take_append_drop w (obj.drop d)
        · simp
        · rw [List.length_cons, hlen]
          have harg : obj.length - d + w - 1 = (obj.length - (d + w) + w - 1) + w := by
            omega
          rw [harg, Nat.add_div_right _ hw]

end ZipThing

namespace ZipThing

/-- The ranged-read loop on an honest store, from the initial state. -/
theorem rangedRead_honest (w : Nat) (key nm : String) (obj : List Nat) (fuel : Nat)
    (hw : 0 < w) (hobj : obj ≠ []) (hfuel : (obj.length + w - 1) / w ≤ fuel) :
    ∃ (newActs : List Action) (frags : List (List Nat)) (s2 : Int),
      rangedRead w key nm (honestFetch obj) fuel
        = ⟨newActs, ⟨s2, (obj.length : Int) - 1, (obj.length : Int)⟩, frags.length, true⟩
      ∧ appendsOf newActs = frags.map (fun b => (nm, b))
      ∧ (∀ a ∈ newActs,
          (∃ s e, a = Action.getObject key s e) ∨ ∃ b, a = Action.append nm b)
      ∧ frags.flatten = obj
      ∧ frags ≠ []
      ∧ frags.length = (obj.length + w - 1) / w := by
  have h := rangedReadGo_honest w key nm obj hw fuel 0 initRange 0 []
    (by simp [initRange]) (by simp [initRange])
    (List.length_pos.mpr hobj) (by simpa using hfuel)
  obtain ⟨na, fr, s2, heq, happ, hshape, hflat, hne, hlen⟩ := h
  refine ⟨na, fr, s2, ?_, happ, hshape, by simpa using hflat, hne, by simpa using hlen⟩
  rw [rangedRead, heq]
  simp

/-- A store that never returns a usable response keeps the code looping:
the state never changes, so the loop never exits whatever the fuel. -/
theorem rangedReadGo_alwaysNone (w : Nat) (key nm : String) :
    ∀ (fuel : Nat) (st : RangeState) (calls : Nat) (acc : List Action),
      st.stop ≠ st.len - 1 →
      (rangedReadGo w key nm (fun _ _ _ => none) fuel st calls acc).done = false := by
  intro fuel
  induction fuel with
  | zero => intro st calls acc h; rw [rangedReadGo, if_neg h]
  | succ fuel ih =>
      intro st calls acc h
      rw [rangedReadGo_step_none w key nm _ fuel st calls acc h rfl]
      exact ih st (calls + 1) _ h

/-- The number of ranged-read iterations is at most the object length. -/
theorem iterCount_le_length (w L : Nat) (hw : 0 < w) (hL : 0 < L) :
    (L + w - 1) / w ≤ L := by
  have h1 : L + w - 1 = (L - 1) + w := by omega
  rw [h1, Nat.add_div_right _ hw]
  have h2 := Nat.div_le_self (L - 1) w
  omega

/-- Claim C2 counterexample: under the code's 1 MiB window, an object of
1 MiB + 1 bytes is fetched in two fragments and each fragment is appended
to the archive separately (two append calls, both under the same name),
rather than being reassembled into one contiguous buffer with a single
append. -/
theorem claim2_counterexample :
    2 ≤ (appendsOf (rangedRead streamObjectSize "p/a" (baseName "p/a")
          (honestFetch (List.replicate (streamObjectSize + 1) 0))
          2).acts).length := by
  obtain ⟨na, fr, s2, heq, happ, hshape, hflat, hne, hlen⟩ :=
    rangedRead_honest streamObjectSize "p/a" (baseName "p/a")
      (List.replicate (streamObjectSize + 1) 0) 2
      (by decide)
      (by intro h; have := congrArg List.length h; simp at this)
      (by rw [List.length_replicate]; decide)
  rw [heq]
  dsimp only
  rw [happ, List.length_map, hlen, List.length_replicate]
  rw [Nat.le_div_iff_mul_le (by decide : 0 < streamObjectSize)]
  decide

/-- Claim C2 as amended: each source object contributes one archive append
per byte-range fragment, every such append is named by the object's
basename, and the in-order concatenation of the fragment bodies is
byte-identical to the source object's bytes; an object larger than the
range window therefore contributes at least two entries instead of one
reassembled entry. -/
theorem claim2_amended (w : Nat) (key : String) (obj : List Nat) (fuel : Nat)
    (hw : 0 < w) (hobj : obj ≠ []) (hfuel : obj.length ≤ fuel) :
    ((appendsOf (rangedRead w key (baseName key) (honestFetch obj) fuel).acts).map
        (fun p => p.2)).flatten = obj
    ∧ (∀ p ∈ appendsOf (rangedRead w key (baseName key) (honestFetch obj) fuel).acts,
        p.1 = baseName key)
    ∧ (rangedRead w key (baseName key) (honestFetch obj) fuel).done = true
    ∧ (appendsOf (rangedRead w key (baseName key) (honestFetch obj) fuel).acts).length
        = (obj.length + w - 1) / w
    ∧ (w < obj.length →
        2 ≤ (appendsOf (rangedRead w key (baseName key) (honestFetch obj) fuel).acts).length) := by
  obtain ⟨na, fr, s2, heq, happ, hshape, hflat, hne, hlen⟩ :=
    rangedRead_honest w key (baseName key) obj fuel hw hobj (by
      have := iterCount_le_length w obj.length hw (List.length_pos.mpr hobj)
      omega)
  rw [heq]
  dsimp only
  refine ⟨?_, ?_, rfl, ?_, ?_⟩
  · rw [happ]
    simpa using hflat
  · intro p hp
    rw [happ] at hp
    obtain ⟨b, _, hb⟩ := List.mem_map.mp hp
    rw [← hb]
  · rw [happ, List.length_map, hlen]
  · intro hlt
    rw [happ, List.length_map, hlen]
    rw [Nat.le_div_iff_mul_le hw]
    omega

/-- Witness for the amended claim C2: a 3-byte object under the code's
1 MiB window is appended once and byte-identically. -/
theorem claim2_amended_witness :
    ((appendsOf (rangedRead streamObjectSize "p/a" (baseName "p/a")
        (honestFetch [1, 2, 3]) 3).acts).map (fun p => p.2)).flatten = [1, 2, 3] :=
  (claim2_amended streamObjectSize "p/a" [1, 2, 3] 3 (by decide) (by decide)
    (by decide)).1

end ZipThing

namespace ZipThing

/-- Claim C6 counterexample: a response with missing ContentRange/Body does
NOT cause the object to be skipped.  With a store whose first response has
no body, the code re-requests the same range (two GetObject calls for a
single-fragment object) and then appends the object's full bytes, so the
object is retried rather than skipped, and no warning path exists. -/
theorem claim6_counterexample :
    appendsOf (rangedRead streamObjectSize "p/a" "a" (flakyOnceFetch [1, 2, 3]) 2).acts
        = [("a", [1, 2, 3])]
    ∧ (rangedRead streamObjectSize "p/a" "a" (flakyOnceFetch [1, 2, 3]) 2).done = true
    ∧ (rangedRead streamObjectSize "p/a" "a" (flakyOnceFetch [1, 2, 3]) 2).calls = 2 := by
  decide

/-- Claim C6 as amended: against an honest range store the loop terminates,
and it terminates exactly when the reported range end equals the declared
total length minus one, having reassembled the object across its appends;
but a store that keeps returning zero-content/missing-body responses makes
the loop retry the same range forever (it never exits for any fuel): such a
response is retried indefinitely, not skipped with a warning, though it is
also not treated as fatal. -/
theorem claim6_amended (w : Nat) (key nm : String) (obj : List Nat) (fuel : Nat)
    (hw : 0 < w) (hobj : obj ≠ []) (hfuel : obj.length ≤ fuel) :
    ((rangedRead w key nm (honestFetch obj) fuel).done = true
      ∧ (rangedRead w key nm (honestFetch obj) fuel).st.stop
          = (rangedRead w key nm (honestFetch obj) fuel).st.len - 1
      ∧ (rangedRead w key nm (honestFetch obj) fuel).st.len = (obj.length : Int)
      ∧ ((appendsOf (rangedRead w key nm (honestFetch obj) fuel).acts).map
            (fun p => p.2)).flatten = obj)
    ∧ ∀ f : Nat, (rangedRead w key nm (fun _ _ _ => none) f).done = false := by
  constructor
  · obtain ⟨na, fr, s2, heq, happ, hshape, hflat, hne, hlen⟩ :=
      rangedRead_honest w key nm obj fuel hw hobj (by
        have := iterCount_le_length w obj.length hw (List.length_pos.mpr hobj)
        omega)
    rw [heq]
    refine ⟨rfl, rfl, rfl, ?_⟩
    dsimp only
    rw [happ]
    simpa using hflat
  · intro f
    exact rangedReadGo_alwaysNone w key nm f initRange 0 [] (by simp [initRange])

/-- Witness for the amended claim C6: the loop finishes on a 3-byte object
with the final reported end equal to length minus one. -/
theorem claim6_amended_witness :
    (rangedRead streamObjectSize "p/a" "a" (honestFetch [1, 2, 3]) 3).done = true :=
  (claim6_amended streamObjectSize "p/a" "a" [1, 2, 3] 3 (by decide) (by decide)
    (by decide)).1.1

end ZipThing

namespace ZipThing

/-- Every action emitted by the ranged-read loop is either inherited from
the accumulator, a GetObject on the loop's own key, or an append under the
loop's own entry name. -/
theorem rangedReadGo_shape (w : Nat) (key nm : String)
    (fetch : Nat → Int → Int → Option Frag) :
    ∀ (fuel : Nat) (st : RangeState) (calls : Nat) (acc : List Action)
      (a : Action), a ∈ (rangedReadGo w key nm fetch fuel st calls acc).acts →
      a ∈ acc ∨ (∃ s e, a = Action.getObject key s e) ∨ ∃ b, a = Action.append nm b := by
  intro fuel
  induction fuel with
  | zero =>
      intro st calls acc a ha
      rw [rangedReadGo] at ha
      by_cases h : st.stop = st.len - 1
      · rw [if_pos h] at ha
        exact Or.inl ha
      · rw [if_neg h] at ha
        exact Or.inl ha
  | succ fuel ih =>
      intro st calls acc a ha
      by_cases h : st.stop = st.len - 1
      · rw [rangedReadGo_done w key nm fetch st calls acc h] at ha
        exact Or.inl ha
      · rcases hf : fetch calls (st.stop + 1) (st.stop + (w : Int)) with _ | f
        · rw [rangedReadGo_step_none w key nm fetch fuel st calls acc h hf] at ha
          rcases ih st (calls + 1) _ a ha with hmem | hrest
          · rcases List.mem_append.mp hmem with hmem | hmem
            · exact Or.inl hmem
            · simp only [List.mem_cons, List.not_mem_nil, or_false] at hmem
              exact Or.inr (Or.inl ⟨_, _, hmem⟩)
          · exact Or.inr hrest
        · rw [rangedReadGo_step_some w key nm fetch fuel st calls acc f h hf] at ha
          rcases ih _ (calls + 1) _ a ha with hmem | hrest
          · rcases List.mem_append.mp hmem with hmem | hmem
            · exact Or.inl hmem
            · rcases List.mem_cons.mp hmem with hmem | hmem
              · exact Or.inr (Or.inl ⟨_, _, hmem⟩)
              · simp only [List.mem_cons, List.not_mem_nil, or_false] at hmem
                exact Or.inr (Or.inr ⟨_, hmem⟩)
          · exact Or.inr hrest

theorem fetchFilesActs_keys (w : Nat) (fetch : String → Nat → Int → Int → Option Frag) :
    ∀ (files : List Desc) (fuel : Nat) (k : String) (s e : Int),
      Action.getObject k s e ∈ (fetchFilesActs w fetch files fuel).1 →
      ∃ f ∈ files, f.key = k := by
  intro files
  induction files with
  | nil =>
      intro fuel k s e h
      rw [fetchFilesActs] at h
      simp at h
  | cons f rest ih =>
      intro fuel k s e h
      rw [fetchFilesActs] at h
      have hfromRanged : Action.getObject k s e
          ∈ (rangedRead w f.key (baseName f.key) (fetch f.key) fuel).acts →
          ∃ g ∈ f :: rest, g.key = k := by
        intro hmem
        rcases rangedReadGo_shape w f.key (baseName f.key) (fetch f.key) fuel
            initRange 0 [] _ hmem with hmem | hmem | hmem
        · simp at hmem
        · obtain ⟨s2, e2, heq⟩ := hmem
          obtain ⟨hk2, -, -⟩ := Action.getObject.inj heq
          exact ⟨f, List.mem_cons_self f rest, hk2.symm⟩
        · obtain ⟨b, heq⟩ := hmem
          exact absurd heq (by simp)
      by_cases hk : f.key = ""
      · rw [if_pos hk] at h
        obtain ⟨g, hg, hgk⟩ := ih fuel k s e h
        exact ⟨g, List.mem_cons_of_mem f hg, hgk⟩
      · rw [if_neg hk] at h
        by_cases hd : (rangedRead w f.key (baseName f.key) (fetch f.key) fuel).done = true
        · rw [if_pos hd] at h
          rcases List.mem_append.mp h with hmem | hmem
          · exact hfromRanged hmem
          · obtain ⟨g, hg, hgk⟩ := ih fuel k s e hmem
            exact ⟨g, List.mem_cons_of_mem f hg, hgk⟩
        · rw [if_neg hd] at h
          exact hfromRanged h

end ZipThing

namespace ZipThing

/-- Mirror of the key lemma for append actions: every append produced by the
fetch loop is named by the basename of one of the iterated files. -/
theorem fetchFilesActs_names (w : Nat) (fetch : String → Nat → Int → Int → Option Frag) :
    ∀ (files : List Desc) (fuel : Nat) (nm : String) (b : List Nat),
      Action.append nm b ∈ (fetchFilesActs w fetch files fuel).1 →
      ∃ f ∈ files, baseName f.key = nm := by
  intro files
  induction files with
  | nil =>
      intro fuel nm b h
      rw [fetchFilesActs] at h
      simp at h
  | cons f rest ih =>
      intro fuel nm b h
      rw [fetchFilesActs] at h
      have hfromRanged : Action.append nm b
          ∈ (rangedRead w f.key (baseName f.key) (fetch f.key) fuel).acts →
          ∃ g ∈ f :: rest, baseName g.key = nm := by
        intro hmem
        rcases rangedReadGo_shape w f.key (baseName f.key) (fetch f.key) fuel
            initRange 0 [] _ hmem with hmem | hmem | hmem
        · simp at hmem
        · obtain ⟨s2, e2, heq⟩ := hmem
          exact absurd heq (by simp)
        · obtain ⟨b2, heq⟩ := hmem
          obtain ⟨hnm, -⟩ := Action.append.inj heq
          exact ⟨f, List.mem_cons_self f rest, hnm.symm⟩
      by_cases hk : f.key = ""
      · rw [if_pos hk] at h
        obtain ⟨g, hg, hgk⟩ := ih fuel nm b h
        exact ⟨g, List.mem_cons_of_mem f hg, hgk⟩
      · rw [if_neg hk] at h
        by_cases hd : (rangedRead w f.key (baseName f.key) (fetch f.key) fuel).done = true
        · rw [if_pos hd] at h
          rcases List.mem_append.mp h with hmem | hmem
          · exact hfromRanged hmem
          · obtain ⟨g, hg, hgk⟩ := ih fuel nm b hmem
            exact ⟨g, List.mem_cons_of_mem f hg, hgk⟩
        · rw [if_neg hd] at h
          exact hfromRanged h

theorem replicate_ne_nil (n a : Nat) (h : n ≠ 0) : List.replicate n a ≠ [] := by
  intro hc
  have := congrArg List.length hc
  rw [List.length_replicate] at this
  exact h this

theorem rangedRead_done_count (w : Nat) (key nm : String) (obj : List Nat)
    (fuel : Nat) (hw : 0 < w) (hobj : obj ≠ [])
    (hfuel : (obj.length + w - 1) / w ≤ fuel) :
    (rangedRead w key nm (honestFetch obj) fuel).done = true
    ∧ (appendsOf (rangedRead w key nm (honestFetch obj) fuel).acts).length
        = (obj.length + w - 1) / w := by
  obtain ⟨na, fr, s2, heq, happ, hshape, hflat, hne, hlen⟩ :=
    rangedRead_honest w key nm obj fuel hw hobj hfuel
  rw [heq]
  refine ⟨rfl, ?_⟩
  dsimp only
  rw [happ, List.length_map, hlen]

theorem scenFilter : scenFiles.filter (fun o => o.size != 0)
    = [⟨"t/b", 2 * 1024 * 1024⟩, ⟨"t/c", 1024⟩] := by decide

theorem scenStore_b0 : scenStore "t/b" = List.replicate (2 * 1024 * 1024) 7 := by
  unfold scenStore
  rw [if_pos rfl]

theorem scenStore_c0 : scenStore "t/c" = List.replicate 1024 9 := by
  unfold scenStore
  rw [if_neg (by decide), if_pos rfl]

theorem scenStore_b : honestStoreFetch scenStore "t/b"
    = honestFetch (List.replicate (2 * 1024 * 1024) 7) := by
  unfold honestStoreFetch
  rw [scenStore_b0]

theorem scenStore_c : honestStoreFetch scenStore "t/c"
    = honestFetch (List.replicate 1024 9) := by
  unfold honestStoreFetch
  rw [scenStore_c0]

/-- Evaluation of the scenario run of the filtered fetch stage: the 0-byte
object is filtered out, the 2 MiB object is appended as two 1 MiB
fragments, and the 1 KiB object as one fragment: 3 appends in total. -/
theorem scenAppendsCount :
    (appendsOf (fetchStageV1 streamObjectSize (honestStoreFetch scenStore) scenFiles
        2).1).length = 3 := by
  have hb := rangedRead_done_count streamObjectSize "t/b" (baseName "t/b")
    (List.replicate (2 * 1024 * 1024) 7) 2 (by decide)
    (replicate_ne_nil _ _ (by decide)) (by rw [List.length_replicate]; decide)
  have hc := rangedRead_done_count streamObjectSize "t/c" (baseName "t/c")
    (List.replicate 1024 9) 2 (by decide)
    (replicate_ne_nil _ _ (by decide)) (by rw [List.length_replicate]; decide)
  rw [fetchStageV1, scenFilter]
  rw [fetchFilesActs, if_neg (by decide), scenStore_b, if_pos hb.1]
  rw [fetchFilesActs, if_neg (by decide), scenStore_c, if_pos hc.1]
  rw [fetchFilesActs]
  dsimp only
  rw [List.append_nil, appendsOf_append, List.length_append, hb.2, hc.2,
    List.length_replicate, List.length_replicate]
  decide

end ZipThing

namespace ZipThing

/-- Claim C10 counterexample: for the spec's own scenario (object sizes 0,
2 MiB and 1 KiB) the filtered fetch stage hands the archive encoder 3
entries, not the 2 the claim asserts, because the 2 MiB object is appended
once per 1 MiB fragment. -/
theorem claim10_counterexample :
    (appendsOf (fetchStageV1 streamObjectSize (honestStoreFetch scenStore) scenFiles
        2).1).length ≠ 2 := by
  rw [scenAppendsCount]
  decide

/-- Claim C10 as amended: in the filtered (first) variant, zero-size
descriptors are excluded before any fetch: every GetObject issued by the
fetch stage names the key of a nonzero-size descriptor and every archive
append is named by the basename of a nonzero-size descriptor; however each
ranged fragment is appended separately, so the scenario with sizes
0 / 2 MiB / 1 KiB produces exactly 3 appends, not 2; and the second
variant, which iterates the unfiltered set, does issue a fetch for a
zero-size object. -/
theorem claim10_amended :
    (∀ (w : Nat) (fetch : String → Nat → Int → Int → Option Frag)
        (files : List Desc) (fuel : Nat) (k : String) (s e : Int),
        Action.getObject k s e ∈ (fetchStageV1 w fetch files fuel).1 →
        ∃ f ∈ files, f.size ≠ 0 ∧ f.key = k)
    ∧ (∀ (w : Nat) (fetch : String → Nat → Int → Int → Option Frag)
        (files : List Desc) (fuel : Nat) (nm : String) (b : List Nat),
        Action.append nm b ∈ (fetchStageV1 w fetch files fuel).1 →
        ∃ f ∈ files, f.size ≠ 0 ∧ baseName f.key = nm)
    ∧ (appendsOf (fetchStageV1 streamObjectSize (honestStoreFetch scenStore) scenFiles
        2).1).length = 3
    ∧ Action.getObject "t/z" 0 1048575
        ∈ (fetchStageV2 streamObjectSize (honestStoreFetch scenStore)
            [⟨"t/z", 0⟩] 1).1 := by
  refine ⟨?_, ?_, scenAppendsCount, by decide⟩
  · intro w fetch files fuel k s e hmem
    rw [fetchStageV1] at hmem
    obtain ⟨g, hg, hgk⟩ := fetchFilesActs_keys w fetch _ fuel k s e hmem
    rw [List.mem_filter] at hg
    exact ⟨g, hg.1, by simpa using hg.2, hgk⟩
  · intro w fetch files fuel nm b hmem
    rw [fetchStageV1] at hmem
    obtain ⟨g, hg, hgk⟩ := fetchFilesActs_names w fetch _ fuel nm b hmem
    rw [List.mem_filter] at hg
    exact ⟨g, hg.1, by simpa using hg.2, hgk⟩

/-- Witness for the amended claim C10: a concrete fetch in the filtered
variant is attributed to its nonzero-size descriptor. -/
theorem claim10_amended_witness :
    ∃ f ∈ [(⟨"a", 1⟩ : Desc)], f.size ≠ 0 ∧ f.key = "a" :=
  claim10_amended.1 streamObjectSize (honestStoreFetch fun _ => [5]) [⟨"a", 1⟩] 1
    "a" 0 1048575 (by decide)

/-- Claim C3: the listing loop against an honest 2-page store (as a store
reports for a prefix with more than 1000 objects).  Because the code never
attaches the returned continuation token to the next ListObjectsV2 request
(lines 36-40 set only Bucket, Prefix and MaxKeys), every request fetches
the first page again: after any number of iterations the loop is still
truncated (it never terminates), the accumulator holds that many duplicate
copies of the first page, and every issued request carried no token. -/
theorem claim3_bug :
    ∀ fuel : Nat,
      listLoopGo (pagedStore [[⟨"t/a", 1⟩], [⟨"t/b", 1⟩]]) fuel true [] []
        = (true, List.replicate fuel ⟨"t/a", 1⟩, List.replicate fuel none) := by
  have hgen : ∀ (fuel : Nat) (acc : List Desc) (reqs : List (Option Nat)),
      listLoopGo (pagedStore [[⟨"t/a", 1⟩], [⟨"t/b", 1⟩]]) fuel true acc reqs
        = (true, acc ++ List.replicate fuel ⟨"t/a", 1⟩,
           reqs ++ List.replicate fuel none) := by
    intro fuel
    induction fuel with
    | zero => intro acc reqs; simp [listLoopGo]
    | succ fuel ih =>
        intro acc reqs
        rw [listLoopGo, if_pos rfl]
        have hresp : pagedStore [[⟨"t/a", 1⟩], [⟨"t/b", 1⟩]] none
            = ⟨[⟨"t/a", 1⟩], true, some 1⟩ := by decide
        rw [hresp]
        rw [ih]
        simp [List.replicate_succ]
  intro fuel
  simpa using hgen fuel [] []

end ZipThing

namespace ZipThing

theorem interleave_nil_left (ys : List Action) : Interleave [] ys ys := by
  induction ys with
  | nil => exact Interleave.nil
  | cons a ys ih => exact Interleave.right ih

theorem interleave_append (xs ys : List Action) : Interleave xs ys (xs ++ ys) := by
  induction xs with
  | nil => simpa using interleave_nil_left ys
  | cons a xs ih => exact Interleave.left ih

/-- Claim C7: after a listing failure the handler responds 500 inside the
catch block but does not return (lines 46-52), so the run does not
short-circuit: with one page accumulated before the failure the very same
run also creates a multipart upload session and later reports 200.  The
claim's required behaviour (no further stage runs) is violated. -/
theorem claim7_bug :
    Action.respond 500
        ∈ (handlerV1 [⟨"t/a", 1⟩] true (some "u") (honestStoreFetch fun _ => [9])
            (fun _ => [[7]]) (fun _ => some "e") 1).1
    ∧ Action.createMultipart
        ∈ (handlerV1 [⟨"t/a", 1⟩] true (some "u") (honestStoreFetch fun _ => [9])
            (fun _ => [[7]]) (fun _ => some "e") 1).1
    ∧ Action.respond 200
        ∈ (handlerV1 [⟨"t/a", 1⟩] true (some "u") (honestStoreFetch fun _ => [9])
            (fun _ => [[7]]) (fun _ => some "e") 1).1 := by
  decide

/-- Claim C8 counterexample: a non-empty listing whose every entry has size
0 (so the filtered set is empty) does not produce the 400 NoObjectsFound
response, and the run does create a multipart upload session, refuting the
claim as stated (the code checks objects.length before filtering,
lines 54-61). -/
theorem claim8_counterexample :
    Action.createMultipart
        ∈ (handlerV1 [⟨"t/z", 0⟩] false (some "u") (honestStoreFetch fun _ => [])
            (fun _ => [[7]]) (fun _ => some "e") 1).1
    ∧ Action.respond 400
        ∉ (handlerV1 [⟨"t/z", 0⟩] false (some "u") (honestStoreFetch fun _ => [])
            (fun _ => [[7]]) (fun _ => some "e") 1).1
    ∧ Action.respond 400
        ∉ (handlerV1 [⟨"t/z", 0⟩] false (some "u") (honestStoreFetch fun _ => [])
            (fun _ => [[7]]) (fun _ => some "e") 1).2 := by
  decide

/-- Claim C8 as amended: the 400 NoObjectsFound path is taken exactly when
the unfiltered listing is empty, in which case no multipart session is ever
created (the trace is exactly the 400 response); whenever the listing is
non-empty — even if every object has size 0, so the filtered set is
empty — the run proceeds and creates a multipart upload session. -/
theorem claim8_amended :
    (∀ (uploadId : Option String) (fetch : String → Nat → Int → Int → Option Frag)
        (encoder : List (String × List Nat) → List (List Nat))
        (oracle : Nat → Option String) (fuel : Nat),
        handlerV1 [] false uploadId fetch encoder oracle fuel
          = ([Action.respond 400], []))
    ∧ (∀ (listAcc : List Desc) (uploadId : Option String)
        (fetch : String → Nat → Int → Int → Option Frag)
        (encoder : List (String × List Nat) → List (List Nat))
        (oracle : Nat → Option String) (fuel : Nat),
        listAcc ≠ [] →
        Action.createMultipart
          ∈ (handlerV1 listAcc false uploadId fetch encoder oracle fuel).1) := by
  constructor
  · intro uploadId fetch encoder oracle fuel
    simp [handlerV1]
  · intro listAcc uploadId fetch encoder oracle fuel hne
    have hlen : ¬ listAcc.length = 0 := by
      simpa [List.length_eq_zero] using hne
    rcases uploadId with _ | u
    · simp [handlerV1, hlen]
    · simp only [handlerV1]
      rw [if_neg hlen]
      by_cases hdone : (fetchStageV1 streamObjectSize fetch listAcc fuel).2 = true
      · simp [hdone]
      · simp [hdone]

/-- Witness for the amended claim C8: a singleton listing creates a
multipart session. -/
theorem claim8_amended_witness :
    Action.createMultipart
      ∈ (handlerV1 [⟨"t/a", 1⟩] false (some "u") (honestStoreFetch fun _ => [9])
          (fun _ => [[7]]) (fun _ => some "e") 1).1 :=
  claim8_amended.2 [⟨"t/a", 1⟩] (some "u") (honestStoreFetch fun _ => [9])
    (fun _ => [[7]]) (fun _ => some "e") 1 (by decide)

/-- Claim C4: the 200 response is sent right after archive.finalize()
resolves (line 234) while the passThrough end handler — which performs the
multipart completion or the abort-and-put fallback — runs un-awaited.
There is therefore a valid execution (an interleaving of the main trace
with the pending end-handler trace) in which the success response precedes
the destination upload: the claim that success is never returned while the
upload is in flight is violated. -/
theorem claim4_bug :
    ∃ tr : List Action,
      Interleave
        (handlerV1 [⟨"t/a", 1⟩] false (some "u") (honestStoreFetch fun _ => [9])
          (fun _ => [[1, 2]]) (fun _ => some "e") 1).1
        (handlerV1 [⟨"t/a", 1⟩] false (some "u") (honestStoreFetch fun _ => [9])
          (fun _ => [[1, 2]]) (fun _ => some "e") 1).2
        tr
      ∧ ∃ i j : Nat, i < j
        ∧ tr.get? i = some (Action.respond 200)
        ∧ tr.get? j = some (Action.putObject [1, 2]) := by
  refine ⟨(handlerV1 [⟨"t/a", 1⟩] false (some "u") (honestStoreFetch fun _ => [9])
        (fun _ => [[1, 2]]) (fun _ => some "e") 1).1
      ++ (handlerV1 [⟨"t/a", 1⟩] false (some "u") (honestStoreFetch fun _ => [9])
        (fun _ => [[1, 2]]) (fun _ => some "e") 1).2,
    interleave_append _ _, 3, 5, by decide, by decide, by decide⟩

end ZipThing

namespace ZipThing

/-- Witness for claim C3 at two iterations: both requests carried no
continuation token, the first page was accumulated twice, and the loop is
still truncated. -/
theorem claim3_bug_witness :
    listLoopGo (pagedStore [[⟨"t/a", 1⟩], [⟨"t/b", 1⟩]]) 2 true [] []
      = (true, List.replicate 2 ⟨"t/a", 1⟩, List.replicate 2 none) :=
  claim3_bug 2

end ZipThing
